import Mathlib

/-!
Verification of the virtual-sound-card tone pipeline.

This file shallowly embeds the sample-synthesis core (the `sine_generator_t`
oscillator and its per-format encoders), the WAVEFORMATEX(TENSIBLE) format
negotiation helpers, the render dispatch of the WASAPI render loops, the
macOS CoreAudio render callback, and the capture-side signal analyzer
(`detect_frequency`, `check_amplitude`).  C `double` arithmetic is idealized
as exact real arithmetic; machine integers are modelled as `ℤ`/`ℕ`.
-/

/-! ## Oscillator state (struct sine_generator_t, common/sine_generator.h) -/

structure sine_generator_t where
  phase : ℝ
  frequency : ℝ
  sample_rate : ℝ
  amplitude : ℝ

/-- `sine_generator_init`: phase starts at 0, other fields copied. -/
def sine_generator_init (frequency sample_rate amplitude : ℝ) : sine_generator_t :=
  { phase := 0, frequency := frequency, sample_rate := sample_rate, amplitude := amplitude }

/-- `phase_increment = 2.0 * M_PI * gen->frequency / gen->sample_rate`
(computed at the top of every process loop). -/
noncomputable def phase_increment (gen : sine_generator_t) : ℝ :=
  2 * Real.pi * gen.frequency / gen.sample_rate

/-- Per-sample tail of every process loop:
`gen->phase += phase_increment; if (gen->phase >= 2.0 * M_PI) gen->phase -= 2.0 * M_PI;` -/
noncomputable def sine_generator_phase_step (gen : sine_generator_t) : sine_generator_t :=
  let p := gen.phase + phase_increment gen
  { gen with phase := if 2 * Real.pi ≤ p then p - 2 * Real.pi else p }

/-- The C cast `(intN_t)(double)` for in-range values: truncation toward zero. -/
noncomputable def c_trunc (x : ℝ) : ℤ :=
  if 0 ≤ x then ⌊x⌋ else ⌈x⌉

/-- `sine_generator_process_f32` (common/sine_generator.c): mono float buffer;
`buffer[i] = (float)(gen->amplitude * sin(gen->phase));` then the phase step. -/
noncomputable def sine_generator_process_f32 : sine_generator_t → ℕ → List ℝ × sine_generator_t
  | gen, 0 => ([], gen)
  | gen, n + 1 =>
    let sample := gen.amplitude * Real.sin gen.phase
    let rest := sine_generator_process_f32 (sine_generator_phase_step gen) n
    (sample :: rest.1, rest.2)

/-- `sine_generator_process_i16`: `buffer[i] = (int16_t)(sample * 32767.0);`. -/
noncomputable def sine_generator_process_i16 : sine_generator_t → ℕ → List ℤ × sine_generator_t
  | gen, 0 => ([], gen)
  | gen, n + 1 =>
    let sample := c_trunc (gen.amplitude * Real.sin gen.phase * 32767)
    let rest := sine_generator_process_i16 (sine_generator_phase_step gen) n
    (sample :: rest.1, rest.2)

/-- `sine_generator_process_i32`: `buffer[i] = (int32_t)(sample * 2147483647.0);`. -/
noncomputable def sine_generator_process_i32 : sine_generator_t → ℕ → List ℤ × sine_generator_t
  | gen, 0 => ([], gen)
  | gen, n + 1 =>
    let sample := c_trunc (gen.amplitude * Real.sin gen.phase * 2147483647)
    let rest := sine_generator_process_i32 (sine_generator_phase_step gen) n
    (sample :: rest.1, rest.2)

/-- `sine_generator_set_frequency`. -/
def sine_generator_set_frequency (gen : sine_generator_t) (frequency : ℝ) : sine_generator_t :=
  { gen with frequency := frequency }

/-- `sine_generator_set_amplitude`. -/
def sine_generator_set_amplitude (gen : sine_generator_t) (amplitude : ℝ) : sine_generator_t :=
  { gen with amplitude := amplitude }

/-- `sine_generator_reset`: `gen->phase = 0.0;`. -/
def sine_generator_reset (gen : sine_generator_t) : sine_generator_t :=
  { gen with phase := 0 }

/-! ## Interleaved per-channel encoders (virtual_sine_device.c, Windows WASAPI) -/

/-- `sine_generator_process_float` (multichannel): the same float sample is
written to every channel of each interleaved frame. -/
noncomputable def sine_generator_process_float :
    sine_generator_t → ℕ → ℕ → List ℝ × sine_generator_t
  | gen, 0, _ => ([], gen)
  | gen, n + 1, channels =>
    let sample := gen.amplitude * Real.sin gen.phase
    let rest := sine_generator_process_float (sine_generator_phase_step gen) n channels
    (List.replicate channels sample ++ rest.1, rest.2)

/-- `sine_generator_process_pcm16` (multichannel): `(int16_t)(sample_float * 32767.0)`
duplicated across channels. -/
noncomputable def sine_generator_process_pcm16 :
    sine_generator_t → ℕ → ℕ → List ℤ × sine_generator_t
  | gen, 0, _ => ([], gen)
  | gen, n + 1, channels =>
    let sample := c_trunc (gen.amplitude * Real.sin gen.phase * 32767)
    let rest := sine_generator_process_pcm16 (sine_generator_phase_step gen) n channels
    (List.replicate channels sample ++ rest.1, rest.2)

/-- `sine_generator_process_pcm24`: `(int32_t)(sample_float * 8388607.0)` stored as
3 little-endian bytes per channel; `>>` on a negative int is floor division,
`& 0xFF` is the nonnegative remainder. -/
noncomputable def sine_generator_process_pcm24 :
    sine_generator_t → ℕ → ℕ → List ℤ × sine_generator_t
  | gen, 0, _ => ([], gen)
  | gen, n + 1, channels =>
    let sample := c_trunc (gen.amplitude * Real.sin gen.phase * 8388607)
    let bytes := [sample.emod 256, (sample.fdiv 256).emod 256, (sample.fdiv 65536).emod 256]
    let rest := sine_generator_process_pcm24 (sine_generator_phase_step gen) n channels
    ((List.replicate channels bytes).flatten ++ rest.1, rest.2)

/-- `sine_generator_process_pcm32`: `(int32_t)(sample_float * 2147483647.0)`
duplicated across channels. -/
noncomputable def sine_generator_process_pcm32 :
    sine_generator_t → ℕ → ℕ → List ℤ × sine_generator_t
  | gen, 0, _ => ([], gen)
  | gen, n + 1, channels =>
    let sample := c_trunc (gen.amplitude * Real.sin gen.phase * 2147483647)
    let rest := sine_generator_process_pcm32 (sine_generator_phase_step gen) n channels
    (List.replicate channels sample ++ rest.1, rest.2)

/-! ## Format descriptors and negotiation (virtual_sine_device.c, demo WASAPI apps) -/

structure Guid where
  data1 : ℕ
  data2 : ℕ
  data3 : ℕ
  data4 : List ℕ
deriving DecidableEq

def KSDATAFORMAT_SUBTYPE_IEEE_FLOAT : Guid :=
  ⟨3, 0, 16, [128, 0, 0, 170, 0, 56, 155, 113]⟩

def KSDATAFORMAT_SUBTYPE_PCM : Guid :=
  ⟨1, 0, 16, [128, 0, 0, 170, 0, 56, 155, 113]⟩

def WAVE_FORMAT_EXTENSIBLE : ℕ := 65534
def WAVE_FORMAT_IEEE_FLOAT : ℕ := 3
def WAVE_FORMAT_PCM : ℕ := 1

/-- The descriptor handed over by the host.  The `SubFormat` extension field of
`WAVEFORMATEXTENSIBLE` is carried alongside the base `WAVEFORMATEX` fields;
the code reads it only behind the `cbSize >= 22` guard. -/
structure WAVEFORMATEXTENSIBLE where
  wFormatTag : ℕ
  nChannels : ℕ
  nSamplesPerSec : ℕ
  wBitsPerSample : ℕ
  nBlockAlign : ℕ
  cbSize : ℕ
  SubFormat : Guid
deriving DecidableEq

/-- `guid_equals`: `memcmp(a, b, sizeof(GUID)) == 0`. -/
def guid_equals (a b : Guid) : Bool := decide (a = b)

/-- The `*format_name` strings assigned by `get_audio_format_info`. -/
inductive format_name_t where
  | unknown
  | ieee_float_extensible
  | pcm_extensible
  | unknown_extensible_subformat
  | ieee_float
  | pcm
deriving DecidableEq

structure audio_format_info where
  is_float : Bool
  bits_per_sample : ℕ
  format_name : format_name_t
deriving DecidableEq

/-- `get_audio_format_info` (virtual_sine_device.c / the WAVEFORMATEXTENSIBLE test):
the outputs start as `{0, pwfx->wBitsPerSample, "Unknown"}` and are overwritten
by the matching branch. -/
def get_audio_format_info (pwfx : WAVEFORMATEXTENSIBLE) : audio_format_info :=
  if pwfx.wFormatTag = WAVE_FORMAT_EXTENSIBLE ∧ 22 ≤ pwfx.cbSize then
    if guid_equals pwfx.SubFormat KSDATAFORMAT_SUBTYPE_IEEE_FLOAT then
      ⟨true, pwfx.wBitsPerSample, .ieee_float_extensible⟩
    else if guid_equals pwfx.SubFormat KSDATAFORMAT_SUBTYPE_PCM then
      ⟨false, pwfx.wBitsPerSample, .pcm_extensible⟩
    else
      ⟨false, pwfx.wBitsPerSample, .unknown_extensible_subformat⟩
  else if pwfx.wFormatTag = WAVE_FORMAT_IEEE_FLOAT then
    ⟨true, pwfx.wBitsPerSample, .ieee_float⟩
  else if pwfx.wFormatTag = WAVE_FORMAT_PCM then
    ⟨false, pwfx.wBitsPerSample, .pcm⟩
  else
    ⟨false, pwfx.wBitsPerSample, .unknown⟩

/-- `is_format_ieee_float` (windows loopback test): no `cbSize` guard there. -/
def is_format_ieee_float (pwfx : WAVEFORMATEXTENSIBLE) : Bool :=
  if pwfx.wFormatTag = WAVE_FORMAT_IEEE_FLOAT then true
  else if pwfx.wFormatTag = WAVE_FORMAT_EXTENSIBLE then
    guid_equals pwfx.SubFormat KSDATAFORMAT_SUBTYPE_IEEE_FLOAT
  else false

/-- `is_format_pcm` (windows loopback test). -/
def is_format_pcm (pwfx : WAVEFORMATEXTENSIBLE) : Bool :=
  if pwfx.wFormatTag = WAVE_FORMAT_PCM then true
  else if pwfx.wFormatTag = WAVE_FORMAT_EXTENSIBLE then
    guid_equals pwfx.SubFormat KSDATAFORMAT_SUBTYPE_PCM
  else false

/-! ## Render dispatch of the virtual_sine_device render loop -/

/-- What one loop iteration writes into the host buffer. -/
inductive render_write where
  | float_samples (samples : List ℝ)
  | pcm16_samples (samples : List ℤ)
  | pcm24_bytes (bytes : List ℤ)
  | pcm32_samples (samples : List ℤ)
  | unsupported_silence (bytes : List ℤ)

/-- The format dispatch in the render loop of virtual_sine_device.c:
float, then PCM by bit depth, and otherwise
`/* Unsupported bit depth - output silence */ memset(pData, 0, numFramesAvailable * pwfx->nBlockAlign);`. -/
noncomputable def render_chunk (info : audio_format_info) (gen : sine_generator_t)
    (numFramesAvailable channels nBlockAlign : ℕ) : render_write × sine_generator_t :=
  if info.is_float then
    let r := sine_generator_process_float gen numFramesAvailable channels
    (.float_samples r.1, r.2)
  else if info.bits_per_sample = 16 then
    let r := sine_generator_process_pcm16 gen numFramesAvailable channels
    (.pcm16_samples r.1, r.2)
  else if info.bits_per_sample = 24 then
    let r := sine_generator_process_pcm24 gen numFramesAvailable channels
    (.pcm24_bytes r.1, r.2)
  else if info.bits_per_sample = 32 then
    let r := sine_generator_process_pcm32 gen numFramesAvailable channels
    (.pcm32_samples r.1, r.2)
  else
    (.unsupported_silence (List.replicate (numFramesAvailable * nBlockAlign) 0), gen)

/-! ## WASAPI pull loop of sine_generator_app (Windows) -/

structure wasapi_render_state where
  gen : sine_generator_t
  frames_written : ℤ
  total_frames : ℤ

/-- One iteration of the `while (frames_written < total_frames)` loop of the
Windows sine_generator_app, for the `WAVE_FORMAT_IEEE_FLOAT` mix format: the
full `numFramesAvailable` chunk is filled by `sine_generator_process_float`
and `frames_written += numFramesAvailable` (the other branch writes silence). -/
noncomputable def wasapi_render_iteration (st : wasapi_render_state)
    (numFramesAvailable nChannels : ℕ) : List ℝ × wasapi_render_state :=
  let r := sine_generator_process_float st.gen numFramesAvailable nChannels
  (r.1, { st with gen := r.2,
                  frames_written := st.frames_written + numFramesAvailable })

/-! ## macOS CoreAudio render callback (sine_generator_app.c, macOS) -/

def CHANNELS : ℕ := 2

structure audio_context_t where
  generator : sine_generator_t
  frames_remaining : ℤ
  total_frames : ℤ

/-- `audio_callback` (macOS): once `frames_remaining <= 0` the whole request is
zero-filled and nothing else happens; otherwise at most `frames_remaining`
stereo int16 frames are generated (one `sine_generator_process_i16` sample per
frame, duplicated to both channels) and the rest of the buffer is memset to 0. -/
noncomputable def audio_callback (context : audio_context_t) (inNumberFrames : ℕ) :
    List ℤ × audio_context_t :=
  if context.frames_remaining ≤ 0 then
    (List.replicate (inNumberFrames * CHANNELS) 0, context)
  else
    let frames_to_generate := min inNumberFrames context.frames_remaining.toNat
    let r := sine_generator_process_i16 context.generator frames_to_generate
    let stereo := (r.1.map fun s => [s, s]).flatten
    let silence := List.replicate ((inNumberFrames - frames_to_generate) * CHANNELS) 0
    (stereo ++ silence,
     { context with generator := r.2,
                    frames_remaining := context.frames_remaining - frames_to_generate })

/-! ## Capture-side analyzer (test_loopback_read) -/

/-- The zero-crossing loop shared by both `detect_frequency` implementations:
`if ((prev < 0 && curr >= 0) || (prev >= 0 && curr < 0)) zero_crossings++;`. -/
def zero_crossing_count {α : Type} [LinearOrder α] [Zero α] : α → List α → ℕ
  | _, [] => 0
  | prev_sample, curr_sample :: rest =>
    (if (prev_sample < 0 ∧ 0 ≤ curr_sample) ∨ (0 ≤ prev_sample ∧ curr_sample < 0) then 1 else 0)
      + zero_crossing_count curr_sample rest

/-- `detect_frequency` (ALSA test, int16 buffer):
`frequency = (zero_crossings / 2.0) / ((double)num_samples / sample_rate)`.
The C code reads `buffer[0]` unconditionally, so only non-empty buffers are
meaningful; the `[]` arm is an arbitrary total-function completion. -/
def detect_frequency (buffer : List ℤ) (sample_rate : ℤ) : ℚ :=
  match buffer with
  | [] => 0
  | b0 :: rest =>
    let zero_crossings := zero_crossing_count b0 rest
    ((zero_crossings : ℚ) / 2) / (((b0 :: rest).length : ℚ) / (sample_rate : ℚ))

/-- `detect_frequency` (WASAPI test, float buffer): identical logic over floats. -/
noncomputable def detect_frequency_float (buffer : List ℝ) (sample_rate : ℤ) : ℝ :=
  match buffer with
  | [] => 0
  | b0 :: rest =>
    let zero_crossings := zero_crossing_count b0 rest
    ((zero_crossings : ℝ) / 2) / (((b0 :: rest).length : ℝ) / (sample_rate : ℝ))

/-- Crossing count as the spec words it: the number of adjacent pairs in which
exactly one sample is `< 0` (zero counted as non-negative). -/
def spec_crossing_count (buffer : List ℤ) : ℕ :=
  (buffer.zip buffer.tail).countP fun p =>
    decide ((p.1 < 0 ∧ 0 ≤ p.2) ∨ (0 ≤ p.1 ∧ p.2 < 0))

/-- `mean = sum / num_samples` of `check_amplitude` (WASAPI test, doubles). -/
noncomputable def buffer_mean (buffer : List ℝ) : ℝ :=
  buffer.sum / buffer.length

/-- `rms = sqrt(sum_sq / num_samples)` of `check_amplitude` (WASAPI test). -/
noncomputable def buffer_rms (buffer : List ℝ) : ℝ :=
  Real.sqrt ((buffer.map fun x => x * x).sum / buffer.length)

/-- `check_amplitude` (WASAPI test): fails (`return 0`) when `rms < 0.01`,
then when `fabs(mean) > 0.1`, otherwise passes. -/
noncomputable def check_amplitude (buffer : List ℝ) : Bool :=
  if buffer_rms buffer < 0.01 then false
  else if 0.1 < |buffer_mean buffer| then false
  else true

/-! ## CLI validation (virtual_sine_device.c argument parsing) -/

/-- `-f` validation: rejected iff `frequency <= 0 || frequency > 20000`. -/
def cli_frequency_ok (frequency : ℝ) : Prop :=
  ¬(frequency ≤ 0 ∨ 20000 < frequency)

/-- `-r` validation: rejected iff `sample_rate < 8000 || sample_rate > 192000`. -/
def cli_sample_rate_ok (sample_rate : ℤ) : Prop :=
  ¬(sample_rate < 8000 ∨ 192000 < sample_rate)

/-! ## Proof infrastructure (derived, not part of the source) -/

/-- Sample emitted at index `i` of a processing run started in state `gen`. -/
noncomputable def sample_of (gen : sine_generator_t) (i : ℕ) : ℝ :=
  (sine_generator_phase_step^[i] gen).amplitude *
    Real.sin (sine_generator_phase_step^[i] gen).phase

/-- At 440 Hz / 48000 Hz the wrapped phase before sample `i` is
`(π/600) * ((11*i) % 1200)`; `crossing_bit i` decides whether that sample of the
sine is negative. -/
def crossing_bit (i : ℕ) : Bool := decide (600 < (11 * i) % 1200)

/-- Number of boolean sign changes among the first `n` adjacent pairs. -/
def change_count (n : ℕ) : ℕ :=
  ∑ i ∈ Finset.range n, (if crossing_bit i ≠ crossing_bit (i + 1) then 1 else 0)

/-- Closed form of the 440 Hz / 48000 Hz oscillator output with amplitude `a`. -/
noncomputable def tone_sample (a : ℝ) (i : ℕ) : ℝ :=
  a * Real.sin ((Real.pi / 600) * (((11 * i) % 1200 : ℕ) : ℝ))

/-- Oscillator invariant used for the phase theorems. -/
def osc_inv (g : sine_generator_t) : Prop :=
  (0 ≤ g.phase ∧ g.phase < 2 * Real.pi) ∧
    0 ≤ g.frequency ∧ g.frequency ≤ g.sample_rate ∧ 0 < g.sample_rate

/-! # Theorems -/

/-! ## Format negotiation (C2, C5, C8) -/

lemma guid_constants_ne : KSDATAFORMAT_SUBTYPE_PCM ≠ KSDATAFORMAT_SUBTYPE_IEEE_FLOAT := by
  decide

lemma guid_equals_eq_false {a b : Guid} (h : a ≠ b) : guid_equals a b = false := by
  simp [guid_equals, h]

lemma guid_equals_eq_true {a b : Guid} (h : a = b) : guid_equals a b = true := by
  simp [guid_equals, h]

/-- C2: a descriptor whose base tag is the extended sentinel and whose
(present, i.e. `cbSize ≥ 22`) sub-format tag matches neither the signed-PCM
constant nor the IEEE-float constant is named `Unknown EXTENSIBLE SubFormat`
by `get_audio_format_info` and is resolved to none of the known encodings. -/
theorem unknown_subformat_negotiation (pwfx : WAVEFORMATEXTENSIBLE)
    (htag : pwfx.wFormatTag = WAVE_FORMAT_EXTENSIBLE)
    (hcb : 22 ≤ pwfx.cbSize)
    (hpcm : pwfx.SubFormat ≠ KSDATAFORMAT_SUBTYPE_PCM)
    (hflt : pwfx.SubFormat ≠ KSDATAFORMAT_SUBTYPE_IEEE_FLOAT) :
    (get_audio_format_info pwfx).format_name = format_name_t.unknown_extensible_subformat ∧
    (get_audio_format_info pwfx).format_name ≠ format_name_t.ieee_float_extensible ∧
    (get_audio_format_info pwfx).format_name ≠ format_name_t.pcm_extensible ∧
    (get_audio_format_info pwfx).format_name ≠ format_name_t.ieee_float ∧
    (get_audio_format_info pwfx).format_name ≠ format_name_t.pcm := by
  have h : get_audio_format_info pwfx =
      ⟨false, pwfx.wBitsPerSample, .unknown_extensible_subformat⟩ := by
    unfold get_audio_format_info
    rw [if_pos ⟨htag, hcb⟩, guid_equals_eq_false hflt, guid_equals_eq_false hpcm]
    simp
  rw [h]
  refine ⟨rfl, ?_, ?_, ?_, ?_⟩ <;> simp

/-- C2 witness: a concrete extensible descriptor with an unrecognized sub-format. -/
theorem unknown_subformat_negotiation_witness :
    (get_audio_format_info
        ⟨65534, 2, 48000, 16, 4, 22, ⟨2, 0, 16, [128, 0, 0, 170, 0, 56, 155, 113]⟩⟩).format_name
      = format_name_t.unknown_extensible_subformat := by
  exact (unknown_subformat_negotiation _ (by decide) (by decide) (by decide) (by decide)).1

/-- C5: an extensible descriptor with the signed-PCM sub-format tag and 16 bits
per sample resolves to integer PCM at 16 bits (and `is_format_pcm` agrees);
an extensible descriptor with the IEEE-float sub-format tag resolves to the
float encoding (and `is_format_ieee_float` agrees). -/
theorem extensible_negotiation_resolution (pwfx : WAVEFORMATEXTENSIBLE)
    (htag : pwfx.wFormatTag = WAVE_FORMAT_EXTENSIBLE)
    (hcb : 22 ≤ pwfx.cbSize) :
    (pwfx.SubFormat = KSDATAFORMAT_SUBTYPE_PCM → pwfx.wBitsPerSample = 16 →
      get_audio_format_info pwfx = ⟨false, 16, format_name_t.pcm_extensible⟩ ∧
      is_format_pcm pwfx = true ∧ is_format_ieee_float pwfx = false) ∧
    (pwfx.SubFormat = KSDATAFORMAT_SUBTYPE_IEEE_FLOAT →
      (get_audio_format_info pwfx).is_float = true ∧
      (get_audio_format_info pwfx).format_name = format_name_t.ieee_float_extensible ∧
      is_format_ieee_float pwfx = true ∧ is_format_pcm pwfx = false) := by
  have htag' : pwfx.wFormatTag ≠ WAVE_FORMAT_IEEE_FLOAT := by
    rw [htag]; decide
  have htag'' : pwfx.wFormatTag ≠ WAVE_FORMAT_PCM := by
    rw [htag]; decide
  constructor
  · intro hsub hbits
    have hne : pwfx.SubFormat ≠ KSDATAFORMAT_SUBTYPE_IEEE_FLOAT := by
      rw [hsub]; exact guid_constants_ne
    refine ⟨?_, ?_, ?_⟩
    · unfold get_audio_format_info
      rw [if_pos ⟨htag, hcb⟩, guid_equals_eq_false hne, guid_equals_eq_true hsub, hbits]
      simp
    · unfold is_format_pcm
      rw [if_neg htag'', if_pos htag, guid_equals_eq_true hsub]
    · unfold is_format_ieee_float
      rw [if_neg htag', if_pos htag, guid_equals_eq_false hne]
  · intro hsub
    have hne : pwfx.SubFormat ≠ KSDATAFORMAT_SUBTYPE_PCM := by
      rw [hsub]; exact fun h => guid_constants_ne h.symm
    have h : get_audio_format_info pwfx =
        ⟨true, pwfx.wBitsPerSample, .ieee_float_extensible⟩ := by
      unfold get_audio_format_info
      rw [if_pos ⟨htag, hcb⟩, guid_equals_eq_true hsub]
      simp
    refine ⟨by rw [h], by rw [h], ?_, ?_⟩
    · unfold is_format_ieee_float
      rw [if_neg htag', if_pos htag, guid_equals_eq_true hsub]
    · unfold is_format_pcm
      rw [if_neg htag'', if_pos htag, guid_equals_eq_false hne]

/-- C5 witness: concrete VB-Cable-style PCM16 and IEEE-float extensible descriptors. -/
theorem extensible_negotiation_resolution_witness :
    (get_audio_format_info ⟨65534, 2, 48000, 16, 4, 22, KSDATAFORMAT_SUBTYPE_PCM⟩
      = ⟨false, 16, format_name_t.pcm_extensible⟩) ∧
    (get_audio_format_info ⟨65534, 2, 48000, 32, 8, 22, KSDATAFORMAT_SUBTYPE_IEEE_FLOAT⟩).is_float
      = true := by
  constructor
  · exact ((extensible_negotiation_resolution _ (by decide) (by decide)).1
      (by decide) (by decide)).1
  · exact ((extensible_negotiation_resolution
      ⟨65534, 2, 48000, 32, 8, 22, KSDATAFORMAT_SUBTYPE_IEEE_FLOAT⟩
      (by decide) (by decide)).2 (by decide)).1

/-- C8: when the negotiated format is not float and its bit depth is none of
16, 24, 32, the render dispatch takes the unsupported-format branch and writes
`numFramesAvailable * nBlockAlign` zero bytes — silence for every requested
frame — leaving the generator state untouched instead of aborting. -/
theorem unsupported_bit_depth_silence (pwfx : WAVEFORMATEXTENSIBLE)
    (gen : sine_generator_t) (numFramesAvailable channels nBlockAlign : ℕ)
    (hfl : (get_audio_format_info pwfx).is_float = false)
    (h16 : (get_audio_format_info pwfx).bits_per_sample ≠ 16)
    (h24 : (get_audio_format_info pwfx).bits_per_sample ≠ 24)
    (h32 : (get_audio_format_info pwfx).bits_per_sample ≠ 32) :
    ∃ bytes : List ℤ,
      render_chunk (get_audio_format_info pwfx) gen numFramesAvailable channels nBlockAlign
          = (render_write.unsupported_silence bytes, gen) ∧
      bytes.length = numFramesAvailable * nBlockAlign ∧
      ∀ b ∈ bytes, b = 0 := by
  refine ⟨List.replicate (numFramesAvailable * nBlockAlign) 0, ?_, ?_, ?_⟩
  · unfold render_chunk
    rw [hfl]
    simp [h16, h24, h32]
  · exact List.length_replicate _ _
  · intro b hb
    exact List.eq_of_mem_replicate hb

/-- C8 witness: an 8-bit plain-PCM descriptor takes the silence branch. -/
theorem unsupported_bit_depth_silence_witness :
    ∃ bytes : List ℤ,
      render_chunk (get_audio_format_info ⟨1, 2, 48000, 8, 2, 0, KSDATAFORMAT_SUBTYPE_PCM⟩)
          (sine_generator_init 440 48000 (1/2)) 3 2 2
        = (render_write.unsupported_silence bytes, sine_generator_init 440 48000 (1/2)) ∧
      bytes.length = 3 * 2 ∧ ∀ b ∈ bytes, b = 0 := by
  exact unsupported_bit_depth_silence _ _ 3 2 2 (by decide) (by decide) (by decide) (by decide)

/-! ## State-effect lemmas for the oscillator -/

lemma step_frequency (gen : sine_generator_t) :
    (sine_generator_phase_step gen).frequency = gen.frequency := rfl

lemma step_sample_rate (gen : sine_generator_t) :
    (sine_generator_phase_step gen).sample_rate = gen.sample_rate := rfl

lemma step_amplitude (gen : sine_generator_t) :
    (sine_generator_phase_step gen).amplitude = gen.amplitude := rfl

lemma iterate_step_frequency (gen : sine_generator_t) (n : ℕ) :
    (sine_generator_phase_step^[n] gen).frequency = gen.frequency := by
  induction n with
  | zero => rfl
  | succ n ih => rw [Function.iterate_succ_apply', step_frequency, ih]

lemma iterate_step_sample_rate (gen : sine_generator_t) (n : ℕ) :
    (sine_generator_phase_step^[n] gen).sample_rate = gen.sample_rate := by
  induction n with
  | zero => rfl
  | succ n ih => rw [Function.iterate_succ_apply', step_sample_rate, ih]

lemma iterate_step_amplitude (gen : sine_generator_t) (n : ℕ) :
    (sine_generator_phase_step^[n] gen).amplitude = gen.amplitude := by
  induction n with
  | zero => rfl
  | succ n ih => rw [Function.iterate_succ_apply', step_amplitude, ih]

lemma process_f32_snd (gen : sine_generator_t) (n : ℕ) :
    (sine_generator_process_f32 gen n).2 = sine_generator_phase_step^[n] gen := by
  induction n generalizing gen with
  | zero => rfl
  | succ n ih =>
    rw [sine_generator_process_f32, ih, Function.iterate_succ_apply]

lemma process_i16_snd (gen : sine_generator_t) (n : ℕ) :
    (sine_generator_process_i16 gen n).2 = sine_generator_phase_step^[n] gen := by
  induction n generalizing gen with
  | zero => rfl
  | succ n ih =>
    rw [sine_generator_process_i16, ih, Function.iterate_succ_apply]

lemma process_i32_snd (gen : sine_generator_t) (n : ℕ) :
    (sine_generator_process_i32 gen n).2 = sine_generator_phase_step^[n] gen := by
  induction n generalizing gen with
  | zero => rfl
  | succ n ih =>
    rw [sine_generator_process_i32, ih, Function.iterate_succ_apply]

lemma process_float_snd (gen : sine_generator_t) (n channels : ℕ) :
    (sine_generator_process_float gen n channels).2 = sine_generator_phase_step^[n] gen := by
  induction n generalizing gen with
  | zero => rfl
  | succ n ih =>
    rw [sine_generator_process_float, ih, Function.iterate_succ_apply]

lemma process_i16_length (gen : sine_generator_t) (n : ℕ) :
    (sine_generator_process_i16 gen n).1.length = n := by
  induction n generalizing gen with
  | zero => rfl
  | succ n ih =>
    rw [sine_generator_process_i16]
    simp [ih]

lemma process_float_length (gen : sine_generator_t) (n channels : ℕ) :
    (sine_generator_process_float gen n channels).1.length = n * channels := by
  induction n generalizing gen with
  | zero => simp [sine_generator_process_float]
  | succ n ih =>
    rw [sine_generator_process_float]
    simp [ih, Nat.succ_mul, Nat.add_comm]

/-- C10: each process call changes only the oscillator phase (frequency, sample
rate and amplitude are preserved), `sine_generator_set_frequency` and
`sine_generator_set_amplitude` each touch only their own field, and
`sine_generator_reset` touches only the phase. -/
theorem process_and_setters_frame_effect :
    ∀ (gen : sine_generator_t) (n : ℕ) (f a : ℝ),
      ((sine_generator_process_f32 gen n).2.frequency = gen.frequency ∧
       (sine_generator_process_f32 gen n).2.sample_rate = gen.sample_rate ∧
       (sine_generator_process_f32 gen n).2.amplitude = gen.amplitude) ∧
      ((sine_generator_process_i16 gen n).2.frequency = gen.frequency ∧
       (sine_generator_process_i16 gen n).2.sample_rate = gen.sample_rate ∧
       (sine_generator_process_i16 gen n).2.amplitude = gen.amplitude) ∧
      ((sine_generator_process_i32 gen n).2.frequency = gen.frequency ∧
       (sine_generator_process_i32 gen n).2.sample_rate = gen.sample_rate ∧
       (sine_generator_process_i32 gen n).2.amplitude = gen.amplitude) ∧
      ((sine_generator_set_frequency gen f).phase = gen.phase ∧
       (sine_generator_set_frequency gen f).sample_rate = gen.sample_rate ∧
       (sine_generator_set_frequency gen f).amplitude = gen.amplitude) ∧
      ((sine_generator_set_amplitude gen a).phase = gen.phase ∧
       (sine_generator_set_amplitude gen a).frequency = gen.frequency ∧
       (sine_generator_set_amplitude gen a).sample_rate = gen.sample_rate) ∧
      ((sine_generator_reset gen).frequency = gen.frequency ∧
       (sine_generator_reset gen).sample_rate = gen.sample_rate ∧
       (sine_generator_reset gen).amplitude = gen.amplitude) := by
  intro gen n f a
  refine ⟨⟨?_, ?_, ?_⟩, ⟨?_, ?_, ?_⟩, ⟨?_, ?_, ?_⟩, ⟨rfl, rfl, rfl⟩, ⟨rfl, rfl, rfl⟩,
    ⟨rfl, rfl, rfl⟩⟩ <;>
    simp [process_f32_snd, process_i16_snd, process_i32_snd,
      iterate_step_frequency, iterate_step_sample_rate, iterate_step_amplitude]

/-! ## Signal analyzer (C6, C9) -/

lemma zcc_eq_spec (rest : List ℤ) (b0 : ℤ) :
    zero_crossing_count b0 rest = spec_crossing_count (b0 :: rest) := by
  induction rest generalizing b0 with
  | nil => rfl
  | cons c t ih =>
    rw [zero_crossing_count, ih c]
    unfold spec_crossing_count
    simp only [List.tail_cons, List.zip_cons_cons, List.countP_cons]
    rcases Classical.em ((b0 < 0 ∧ 0 ≤ c) ∨ (0 ≤ b0 ∧ c < 0)) with h | h
    · rw [if_pos h]
      simp [h]
      omega
    · rw [if_neg h]
      simp [h]

/-- C6: on every non-empty buffer, `detect_frequency` returns exactly
`(crossings / 2) / (len / sampleRate)` where `crossings` counts the adjacent
pairs of which exactly one sample is negative (zero counted as non-negative). -/
theorem detect_frequency_formula (buffer : List ℤ) (sample_rate : ℤ)
    (hne : buffer ≠ []) :
    detect_frequency buffer sample_rate
      = ((spec_crossing_count buffer : ℚ) / 2) /
          ((buffer.length : ℚ) / (sample_rate : ℚ)) := by
  match buffer, hne with
  | b0 :: rest, _ =>
    rw [detect_frequency, zcc_eq_spec]

/-- C6 witness: a concrete three-sample buffer with two crossings. -/
theorem detect_frequency_formula_witness :
    detect_frequency [1, -1, 2] 3
      = ((spec_crossing_count [1, -1, 2] : ℚ) / 2) /
          ((([1, -1, 2] : List ℤ).length : ℚ) / ((3 : ℤ) : ℚ)) := by
  exact detect_frequency_formula [1, -1, 2] 3 (by decide)

lemma check_amplitude_eq_false_iff (buffer : List ℝ) :
    check_amplitude buffer = false ↔
      (buffer_rms buffer < 0.01 ∨ 0.1 < |buffer_mean buffer|) := by
  unfold check_amplitude
  rcases Classical.em (buffer_rms buffer < 0.01) with h1 | h1
  · simp [h1]
  · rcases Classical.em (0.1 < |buffer_mean buffer|) with h2 | h2
    · simp [h1, h2]
    · simp [h1, h2]

lemma rms_replicate_zero (n : ℕ) : buffer_rms (List.replicate n 0) = 0 := by
  unfold buffer_rms
  have h : ((List.replicate n (0:ℝ)).map fun x => x * x) = List.replicate n 0 := by
    rw [List.map_replicate]
    norm_num
  rw [h, List.sum_replicate]
  simp

/-- C9: `check_amplitude` fails exactly when the computed RMS is below the
silence threshold or the absolute computed mean exceeds the DC-offset
threshold, and on every non-empty all-zero buffer the RMS is below the
silence threshold, so the check fails. -/
theorem check_amplitude_failure_characterization :
    (∀ buffer : List ℝ,
        check_amplitude buffer = false ↔
          (buffer_rms buffer < 0.01 ∨ 0.1 < |buffer_mean buffer|)) ∧
    (∀ n : ℕ, 0 < n →
        buffer_rms (List.replicate n 0) < 0.01 ∧
        check_amplitude (List.replicate n 0) = false) := by
  refine ⟨check_amplitude_eq_false_iff, ?_⟩
  intro n _
  have h : buffer_rms (List.replicate n 0) < 0.01 := by
    rw [rms_replicate_zero]; norm_num
  exact ⟨h, (check_amplitude_eq_false_iff _).mpr (Or.inl h)⟩

/-- C9 witness: the all-zero two-sample buffer fails the amplitude check. -/
theorem check_amplitude_failure_characterization_witness :
    buffer_rms (List.replicate 2 0) < 0.01 ∧
    check_amplitude (List.replicate 2 0) = false := by
  exact check_amplitude_failure_characterization.2 2 (by decide)

/-! ## Int16 encoding (C3) -/

lemma c_trunc_close (x : ℝ) : |((c_trunc x : ℤ) : ℝ) - x| < 1 := by
  unfold c_trunc
  split
  · rw [abs_lt]
    constructor <;>
      linarith [Int.floor_le x, Int.lt_floor_add_one x]
  · rw [abs_lt]
    constructor <;>
      linarith [Int.le_ceil x, Int.ceil_lt_add_one x]

lemma c_trunc_round_close (x : ℝ) : |c_trunc x - round x| ≤ 1 := by
  have hl : ⌊x⌋ ≤ round x := by
    rw [round_eq]
    exact Int.floor_le_floor (by linarith)
  have hr : round x ≤ ⌊x⌋ + 1 := by
    rw [round_eq]
    calc ⌊x + 1/2⌋ ≤ ⌊x + 1⌋ := Int.floor_le_floor (by linarith)
      _ = ⌊x⌋ + 1 := by
          exact_mod_cast Int.floor_add_int x 1
  have hcf : ⌊x⌋ ≤ ⌈x⌉ := Int.floor_le_ceil x
  have hfc : ⌈x⌉ ≤ ⌊x⌋ + 1 := Int.ceil_le_floor_add_one x
  unfold c_trunc
  split <;> (rw [abs_le]; omega)

lemma c_trunc_bounds {x : ℝ} {B : ℤ} (h : |x| ≤ (B : ℝ)) :
    -B ≤ c_trunc x ∧ c_trunc x ≤ B := by
  rw [abs_le] at h
  unfold c_trunc
  split
  · constructor
    · calc (-B : ℤ) = ⌊((-B : ℤ) : ℝ)⌋ := (Int.floor_intCast _).symm
        _ ≤ ⌊x⌋ := Int.floor_le_floor (by push_cast; linarith [h.1])
    · calc ⌊x⌋ ≤ ⌊((B : ℤ) : ℝ)⌋ := Int.floor_le_floor (by linarith [h.2])
        _ = B := Int.floor_intCast _
  · constructor
    · calc (-B : ℤ) = ⌈((-B : ℤ) : ℝ)⌉ := (Int.ceil_intCast _).symm
        _ ≤ ⌈x⌉ := Int.ceil_le_ceil (by push_cast; linarith [h.1])
    · calc ⌈x⌉ ≤ ⌈((B : ℤ) : ℝ)⌉ := Int.ceil_le_ceil (by linarith [h.2])
        _ = B := Int.ceil_intCast _

/-- C3 counterexample: at amplitude `1/2` and phase `π/2` the generated sample
is `1/2`, whose encoding in the code is `16383`, while `round(s × 32767)` is
`16384` — the encoding is not `round(s × 32767)`. -/
theorem i16_encoding_not_round :
    (sine_generator_process_i16 ⟨Real.pi / 2, 440, 48000, 1/2⟩ 1).1 = [16383] ∧
    round (((1 : ℝ)/2) * Real.sin (Real.pi / 2) * 32767) = 16384 := by
  have hs : ((1 : ℝ)/2) * Real.sin (Real.pi / 2) * 32767 = 32767 / 2 := by
    rw [Real.sin_pi_div_two]; ring
  constructor
  · rw [sine_generator_process_i16, sine_generator_process_i16]
    simp only [List.cons.injEq, and_true]
    show c_trunc (((1 : ℝ)/2) * Real.sin (Real.pi / 2) * 32767) = 16383
    rw [hs]
    unfold c_trunc
    rw [if_pos (by norm_num), Int.floor_eq_iff]
    constructor <;> norm_num
  · rw [hs, round_eq]
    have h : (32767 : ℝ) / 2 + 1/2 = ((16384 : ℤ) : ℝ) := by push_cast; norm_num
    rw [h, Int.floor_intCast]

/-- C3 amended: for amplitude in `[0,1]` the 16-bit encoding of a generated
sample `s` is the truncation toward zero of `s × 32767`: it lies strictly
within one unit of `s × 32767`, within one unit of `round(s × 32767)`, and
always fits in `[-32767, 32767]`. -/
theorem i16_encoding_truncation_bounds (gen : sine_generator_t)
    (h0 : 0 ≤ gen.amplitude) (h1 : gen.amplitude ≤ 1) :
    (sine_generator_process_i16 gen 1).1
        = [c_trunc (gen.amplitude * Real.sin gen.phase * 32767)] ∧
    |((c_trunc (gen.amplitude * Real.sin gen.phase * 32767) : ℤ) : ℝ)
        - gen.amplitude * Real.sin gen.phase * 32767| < 1 ∧
    |c_trunc (gen.amplitude * Real.sin gen.phase * 32767)
        - round (gen.amplitude * Real.sin gen.phase * 32767)| ≤ 1 ∧
    -32767 ≤ c_trunc (gen.amplitude * Real.sin gen.phase * 32767) ∧
    c_trunc (gen.amplitude * Real.sin gen.phase * 32767) ≤ 32767 := by
  have hs1 : gen.amplitude * Real.sin gen.phase ≤ 1 := by
    calc gen.amplitude * Real.sin gen.phase
        ≤ gen.amplitude * 1 := mul_le_mul_of_nonneg_left (Real.sin_le_one _) h0
      _ = gen.amplitude := mul_one _
      _ ≤ 1 := h1
  have hs2 : -1 ≤ gen.amplitude * Real.sin gen.phase := by
    calc (-1 : ℝ) ≤ -gen.amplitude := by linarith
      _ = gen.amplitude * (-1) := by ring
      _ ≤ gen.amplitude * Real.sin gen.phase :=
          mul_le_mul_of_nonneg_left (Real.neg_one_le_sin _) h0
  have hb : |gen.amplitude * Real.sin gen.phase * 32767| ≤ ((32767 : ℤ) : ℝ) := by
    rw [abs_le]
    push_cast
    constructor <;> nlinarith
  refine ⟨?_, c_trunc_close _, c_trunc_round_close _,
    (c_trunc_bounds hb).1, (c_trunc_bounds hb).2⟩
  rw [sine_generator_process_i16, sine_generator_process_i16]

/-- C3 witness for the amended theorem, at amplitude `1/2` and phase `0`. -/
theorem i16_encoding_truncation_bounds_witness :
    (sine_generator_process_i16 ⟨0, 440, 48000, 1/2⟩ 1).1
        = [c_trunc ((1/2 : ℝ) * Real.sin (0 : ℝ) * 32767)] ∧
    -32767 ≤ c_trunc ((1/2 : ℝ) * Real.sin (0 : ℝ) * 32767) := by
  have h := i16_encoding_truncation_bounds ⟨0, 440, 48000, 1/2⟩
    (by norm_num) (by norm_num)
  exact ⟨h.1, h.2.2.2.1⟩

/-! ## Phase invariant (C4) -/

lemma step_phase_eq (gen : sine_generator_t) :
    (sine_generator_phase_step gen).phase =
      if 2 * Real.pi ≤ gen.phase + phase_increment gen
      then gen.phase + phase_increment gen - 2 * Real.pi
      else gen.phase + phase_increment gen := rfl

lemma step_osc_inv {gen : sine_generator_t} (h : osc_inv gen) :
    osc_inv (sine_generator_phase_step gen) := by
  obtain ⟨⟨hp0, hp1⟩, hf, hfsr, hsr⟩ := h
  have hinc0 : 0 ≤ phase_increment gen := by
    unfold phase_increment
    have : (0:ℝ) ≤ 2 * Real.pi * gen.frequency :=
      mul_nonneg (by positivity) hf
    positivity
  have hinc1 : phase_increment gen ≤ 2 * Real.pi := by
    unfold phase_increment
    rw [div_le_iff₀ hsr]
    nlinarith [Real.pi_pos]
  refine ⟨?_, ?_, ?_, ?_⟩
  · rw [step_phase_eq]
    split_ifs with hw
    · constructor <;> linarith
    · push_neg at hw
      constructor <;> linarith
  · rw [step_frequency]; exact hf
  · rw [step_frequency, step_sample_rate]; exact hfsr
  · rw [step_sample_rate]; exact hsr

lemma iterate_osc_inv {gen : sine_generator_t} (n : ℕ) (h : osc_inv gen) :
    osc_inv (sine_generator_phase_step^[n] gen) := by
  induction n with
  | zero => exact h
  | succ n ih =>
    rw [Function.iterate_succ_apply']
    exact step_osc_inv ih

lemma process_f32_osc_inv {gen : sine_generator_t} (n : ℕ) (h : osc_inv gen) :
    osc_inv ((sine_generator_process_f32 gen n).2) := by
  rw [process_f32_snd]
  exact iterate_osc_inv n h

lemma foldl_osc_inv (ns : List ℕ) {gen : sine_generator_t} (h : osc_inv gen) :
    osc_inv (ns.foldl (fun g n => (sine_generator_process_f32 g n).2) gen) := by
  induction ns generalizing gen with
  | nil => exact h
  | cons m ms ih =>
    rw [List.foldl_cons]
    exact ih (process_f32_osc_inv m h)

/-- C4 counterexample: the pair (20000 Hz, 8000 Hz) passes the CLI validation
(so it is a valid configuration for the code), yet after a single generated
sample the phase is `3π`, outside `[0, 2π)` — the single `-= 2π` wrap cannot
keep up once the per-sample increment exceeds `2π`. -/
theorem phase_escapes_on_valid_cli_pair :
    cli_frequency_ok 20000 ∧ cli_sample_rate_ok 8000 ∧
    ¬(((sine_generator_process_f32 (sine_generator_init 20000 8000 (1/2)) 1).2).phase
        < 2 * Real.pi) := by
  have hpi := Real.pi_pos
  refine ⟨?_, ?_, ?_⟩
  · unfold cli_frequency_ok
    push_neg
    constructor <;> norm_num
  · unfold cli_sample_rate_ok
    push_neg
    constructor <;> norm_num
  · have hkey : ((sine_generator_process_f32 (sine_generator_init 20000 8000 (1/2)) 1).2).phase
        = 3 * Real.pi := by
      rw [process_f32_snd, Function.iterate_one, step_phase_eq]
      have hinc : phase_increment (sine_generator_init 20000 8000 (1/2)) = 5 * Real.pi := by
        unfold phase_increment sine_generator_init
        ring
      have hph : (sine_generator_init 20000 8000 (1/2)).phase = 0 := rfl
      rw [hinc, hph, if_pos (by nlinarith)]
      ring
    rw [hkey]
    push_neg
    nlinarith

/-- C4 amended: for an oscillator initialized with `0 ≤ frequency ≤ sampleRate`
(`0 < sampleRate`), every sequence of process calls of arbitrary buffer
lengths keeps the phase in `[0, 2π)`; when the incremented phase reaches `2π`
the wrap subtracts `2π` (preserving continuity) rather than resetting to zero;
and the int16/int32 process calls drive the state identically to float. -/
theorem phase_stays_in_range (f sr a : ℝ)
    (hf : 0 ≤ f) (hsr : 0 < sr) (hfsr : f ≤ sr) :
    (∀ ns : List ℕ,
        0 ≤ (ns.foldl (fun g n => (sine_generator_process_f32 g n).2)
              (sine_generator_init f sr a)).phase ∧
        (ns.foldl (fun g n => (sine_generator_process_f32 g n).2)
              (sine_generator_init f sr a)).phase < 2 * Real.pi) ∧
    (∀ gen : sine_generator_t,
        2 * Real.pi ≤ gen.phase + phase_increment gen →
          (sine_generator_phase_step gen).phase
            = gen.phase + phase_increment gen - 2 * Real.pi) ∧
    (∀ (gen : sine_generator_t) (n : ℕ),
        (sine_generator_process_i16 gen n).2 = (sine_generator_process_f32 gen n).2 ∧
        (sine_generator_process_i32 gen n).2 = (sine_generator_process_f32 gen n).2) := by
  refine ⟨?_, ?_, ?_⟩
  · intro ns
    have hinit : osc_inv (sine_generator_init f sr a) := by
      refine ⟨⟨le_refl 0, by positivity⟩, hf, hfsr, hsr⟩
    exact (foldl_osc_inv ns hinit).1
  · intro gen hw
    rw [step_phase_eq, if_pos hw]
  · intro gen n
    rw [process_i16_snd, process_i32_snd, process_f32_snd]
    exact ⟨rfl, rfl⟩

/-- C4 witness: 440 Hz at 48000 Hz through two buffers of lengths 3 and 2. -/
theorem phase_stays_in_range_witness :
    0 ≤ (([3, 2] : List ℕ).foldl (fun g n => (sine_generator_process_f32 g n).2)
          (sine_generator_init 440 48000 (1/2))).phase ∧
    (([3, 2] : List ℕ).foldl (fun g n => (sine_generator_process_f32 g n).2)
          (sine_generator_init 440 48000 (1/2))).phase < 2 * Real.pi := by
  exact (phase_stays_in_range 440 48000 (1/2)
    (by norm_num) (by norm_num) (by norm_num)).1 [3, 2]

/-! ## Render scheduler (C1) -/

lemma dup_flatten_length (l : List ℤ) :
    ((l.map fun s => [s, s]).flatten).length = 2 * l.length := by
  induction l with
  | nil => rfl
  | cons x xs ih =>
    simp only [List.map_cons, List.flatten_cons, List.length_append, List.length_cons, ih]
    simp
    omega

/-- C1 amended: in the macOS callback, once `frames_remaining ≤ 0` every
requested frame is zero and the context (generator included) is untouched;
every callback writes exactly `inNumberFrames * CHANNELS` samples; and when
fewer frames remain than requested the tail beyond the generated frames is an
explicit zero fill.  In the WASAPI pull loop, by contrast, every iteration
fills all `numFramesAvailable` requested frames with sine samples and advances
`frames_written` by that amount (so the final chunk overshoots the target
rather than being zero-filled). -/
theorem render_scheduler_zero_fill :
    (∀ (context : audio_context_t) (inNumberFrames : ℕ),
        context.frames_remaining ≤ 0 →
          audio_callback context inNumberFrames
            = (List.replicate (inNumberFrames * CHANNELS) 0, context)) ∧
    (∀ (context : audio_context_t) (inNumberFrames : ℕ),
        (audio_callback context inNumberFrames).1.length = inNumberFrames * CHANNELS) ∧
    (∀ (context : audio_context_t) (inNumberFrames : ℕ),
        0 < context.frames_remaining →
        context.frames_remaining.toNat ≤ inNumberFrames →
          (audio_callback context inNumberFrames).1.drop
              (context.frames_remaining.toNat * CHANNELS)
            = List.replicate
                ((inNumberFrames - context.frames_remaining.toNat) * CHANNELS) 0) ∧
    (∀ (st : wasapi_render_state) (numFramesAvailable nChannels : ℕ),
        (wasapi_render_iteration st numFramesAvailable nChannels).1.length
            = numFramesAvailable * nChannels ∧
        (wasapi_render_iteration st numFramesAvailable nChannels).2.frames_written
            = st.frames_written + numFramesAvailable) := by
  refine ⟨?_, ?_, ?_, ?_⟩
  · intro context inNumberFrames h
    unfold audio_callback
    rw [if_pos h]
  · intro context inNumberFrames
    unfold audio_callback
    split_ifs with h
    · simp
    · simp only [List.length_append, List.length_replicate, dup_flatten_length,
        process_i16_length]
      unfold CHANNELS
      omega
  · intro context inNumberFrames h0 hle
    unfold audio_callback
    rw [if_neg (by omega)]
    simp only []
    have hmin : min inNumberFrames context.frames_remaining.toNat
        = context.frames_remaining.toNat := min_eq_right hle
    rw [hmin]
    have hlen : ((((sine_generator_process_i16 context.generator
          context.frames_remaining.toNat).1).map fun s => [s, s]).flatten).length
        = context.frames_remaining.toNat * CHANNELS := by
      rw [dup_flatten_length, process_i16_length]
      unfold CHANNELS
      omega
    rw [← hlen, List.drop_left]
  · intro st numFramesAvailable nChannels
    constructor
    · exact process_float_length st.gen numFramesAvailable nChannels
    · rfl

/-- C1 witness: with the target already reached, a 3-frame request is all
zeros and the context is unchanged. -/
theorem render_scheduler_zero_fill_witness :
    audio_callback ⟨⟨0, 440, 48000, 1/2⟩, 0, 10⟩ 3
      = (List.replicate (3 * CHANNELS) 0, ⟨⟨0, 440, 48000, 1/2⟩, 0, 10⟩) := by
  exact render_scheduler_zero_fill.1 ⟨⟨0, 440, 48000, 1/2⟩, 0, 10⟩ 3 (by decide)

/-- C1 counterexample: in the WASAPI pull loop a request of 2 frames with only
1 frame remaining before the target is filled entirely with sine samples —
the tail is `[sin(π/2 + 2π·440/48000)] ≠ [0]`, not an explicit zero fill. -/
theorem wasapi_tail_not_zero_filled :
    ((⟨⟨Real.pi/2, 440, 48000, 1⟩, 0, 1⟩ : wasapi_render_state).frames_written
        < (⟨⟨Real.pi/2, 440, 48000, 1⟩, 0, 1⟩ : wasapi_render_state).total_frames) ∧
    (wasapi_render_iteration ⟨⟨Real.pi/2, 440, 48000, 1⟩, 0, 1⟩ 2 1).1.length = 2 ∧
    (wasapi_render_iteration ⟨⟨Real.pi/2, 440, 48000, 1⟩, 0, 1⟩ 2 1).1.drop 1
      ≠ [(0 : ℝ)] := by
  have hpi := Real.pi_pos
  refine ⟨by decide, ?_, ?_⟩
  · show (sine_generator_process_float (⟨Real.pi/2, 440, 48000, 1⟩ : sine_generator_t) 2 1).1.length = 2
    rw [process_float_length]
  · have hlist : (wasapi_render_iteration ⟨⟨Real.pi/2, 440, 48000, 1⟩, 0, 1⟩ 2 1).1
        = [(1 : ℝ) * Real.sin (Real.pi/2),
           (sine_generator_phase_step ⟨Real.pi/2, 440, 48000, 1⟩).amplitude *
             Real.sin ((sine_generator_phase_step ⟨Real.pi/2, 440, 48000, 1⟩).phase)] := by
      show (sine_generator_process_float (⟨Real.pi/2, 440, 48000, 1⟩ : sine_generator_t) 2 1).1 = _
      simp [sine_generator_process_float]
    rw [hlist]
    have hamp : (sine_generator_phase_step
        (⟨Real.pi/2, 440, 48000, 1⟩ : sine_generator_t)).amplitude = 1 := rfl
    have hph : (sine_generator_phase_step
        (⟨Real.pi/2, 440, 48000, 1⟩ : sine_generator_t)).phase
        = Real.pi/2 + 2 * Real.pi * 440 / 48000 := by
      rw [step_phase_eq]
      have hinc : phase_increment (⟨Real.pi/2, 440, 48000, 1⟩ : sine_generator_t)
          = 2 * Real.pi * 440 / 48000 := rfl
      rw [hinc]
      rw [if_neg (by intro hcon; nlinarith)]
    rw [hamp, hph]
    have hsin : Real.sin (Real.pi/2 + 2 * Real.pi * 440 / 48000)
        = Real.cos (2 * Real.pi * 440 / 48000) := by
      rw [Real.sin_add, Real.sin_pi_div_two, Real.cos_pi_div_two]
      ring
    have hcos : 0 < Real.cos (2 * Real.pi * 440 / 48000) := by
      apply Real.cos_pos_of_mem_Ioo
      constructor <;> nlinarith
    rw [List.drop_succ_cons, List.drop_zero]
    intro hcon
    have h0 : (1 : ℝ) * Real.sin (Real.pi/2 + 2 * Real.pi * 440 / 48000) = 0 := by
      simpa using hcon
    rw [one_mul, hsin] at h0
    exact absurd h0 (ne_of_gt hcos)

/-! ## Frequency detection on the synthetic 440 Hz tone (C7) -/

lemma process_f32_fst (gen : sine_generator_t) (n : ℕ) :
    (sine_generator_process_f32 gen n).1 = (List.range n).map (sample_of gen) := by
  induction n generalizing gen with
  | zero => simp [sine_generator_process_f32]
  | succ n ih =>
    rw [sine_generator_process_f32, List.range_succ_eq_map, List.map_cons, List.map_map]
    have hfun : sample_of gen ∘ Nat.succ = sample_of (sine_generator_phase_step gen) := by
      funext j
      simp [sample_of, Function.iterate_succ_apply]
    rw [hfun, ← ih]
    have hhead : sample_of gen 0 = gen.amplitude * Real.sin gen.phase := by
      simp [sample_of]
    rw [hhead]

lemma phase440 (a : ℝ) (i : ℕ) :
    (sine_generator_phase_step^[i] (sine_generator_init 440 48000 a)).phase
      = Real.pi / 600 * (((11 * i) % 1200 : ℕ) : ℝ) := by
  have hpi := Real.pi_pos
  induction i with
  | zero =>
    simp [sine_generator_init]
  | succ i ih =>
    rw [Function.iterate_succ_apply', step_phase_eq, ih]
    have hinc : phase_increment (sine_generator_phase_step^[i] (sine_generator_init 440 48000 a))
        = Real.pi / 600 * 11 := by
      unfold phase_increment
      rw [iterate_step_frequency, iterate_step_sample_rate]
      show 2 * Real.pi * 440 / 48000 = Real.pi / 600 * 11
      ring
    rw [hinc]
    set m := (11 * i) % 1200 with hm
    have hmlt : m < 1200 := Nat.mod_lt _ (by norm_num)
    by_cases hcase : m + 11 < 1200
    · have hm' : (11 * (i + 1)) % 1200 = m + 11 := by omega
      have hmr : (m : ℝ) + 11 < 1200 := by exact_mod_cast hcase
      have hneg : ¬(2 * Real.pi ≤ Real.pi / 600 * (m : ℝ) + Real.pi / 600 * 11) := by
        push_neg
        have hstep : Real.pi / 600 * ((m : ℝ) + 11) < Real.pi / 600 * 1200 :=
          mul_lt_mul_of_pos_left hmr (by positivity)
        linarith only [hstep, hpi]
      rw [if_neg hneg, hm']
      push_cast
      ring
    · have h1200 : 1200 ≤ m + 11 := by omega
      have hmr : (1200 : ℝ) ≤ (m : ℝ) + 11 := by exact_mod_cast h1200
      have hpos : 2 * Real.pi ≤ Real.pi / 600 * (m : ℝ) + Real.pi / 600 * 11 := by
        have hstep : Real.pi / 600 * 1200 ≤ Real.pi / 600 * ((m : ℝ) + 11) :=
          mul_le_mul_of_nonneg_left hmr (by positivity)
        linarith only [hstep, hpi]
      have hm' : (11 * (i + 1)) % 1200 = m + 11 - 1200 := by omega
      rw [if_pos hpos, hm']
      have hsub : ((m + 11 - 1200 : ℕ) : ℝ) = (m : ℝ) + 11 - 1200 := by
        rw [Nat.cast_sub h1200]
        push_cast
        ring
      rw [hsub]
      ring

lemma sin_sign (m : ℕ) (hm : m < 1200) :
    Real.sin (Real.pi / 600 * (m : ℝ)) < 0 ↔ 600 < m := by
  have hpi := Real.pi_pos
  constructor
  · intro h
    by_contra hle
    push_neg at hle
    have hcast : (m : ℝ) ≤ 600 := by exact_mod_cast hle
    have h0 : 0 ≤ Real.pi / 600 * (m : ℝ) := by positivity
    have h1 : Real.pi / 600 * (m : ℝ) ≤ Real.pi := by nlinarith
    linarith [Real.sin_nonneg_of_nonneg_of_le_pi h0 h1]
  · intro h
    have hcast : (600 : ℝ) < (m : ℝ) := by exact_mod_cast h
    have hcast2 : (m : ℝ) < 1200 := by exact_mod_cast hm
    have h1 : Real.pi < Real.pi / 600 * (m : ℝ) := by nlinarith
    have h2 : Real.pi / 600 * (m : ℝ) < 2 * Real.pi := by nlinarith
    have h3 : 0 < Real.sin (Real.pi / 600 * (m : ℝ) - Real.pi) :=
      Real.sin_pos_of_pos_of_lt_pi (by linarith) (by linarith)
    have h4 : Real.sin (Real.pi / 600 * (m : ℝ) - Real.pi)
        = -Real.sin (Real.pi / 600 * (m : ℝ)) := by
      rw [Real.sin_sub, Real.cos_pi, Real.sin_pi]
      ring
    rw [h4] at h3
    linarith

lemma tone_sample_neg_iff {a : ℝ} (ha : 0 < a) (i : ℕ) :
    tone_sample a i < 0 ↔ crossing_bit i = true := by
  unfold tone_sample crossing_bit
  rw [decide_eq_true_eq]
  have hm : (11 * i) % 1200 < 1200 := Nat.mod_lt _ (by norm_num)
  rw [← sin_sign _ hm]
  constructor
  · intro h
    by_contra hnn
    push_neg at hnn
    nlinarith
  · intro h
    exact mul_neg_of_pos_of_neg ha h

lemma tone_sample_nonneg_iff {a : ℝ} (ha : 0 < a) (i : ℕ) :
    0 ≤ tone_sample a i ↔ crossing_bit i = false := by
  rw [← not_lt, tone_sample_neg_iff ha]
  cases crossing_bit i <;> simp

lemma tone_cond_iff {a : ℝ} (ha : 0 < a) (i j : ℕ) :
    ((tone_sample a i < 0 ∧ 0 ≤ tone_sample a j) ∨
      (0 ≤ tone_sample a i ∧ tone_sample a j < 0))
      ↔ crossing_bit i ≠ crossing_bit j := by
  cases hbi : crossing_bit i <;> cases hbj : crossing_bit j <;>
    simp [tone_sample_neg_iff ha, tone_sample_nonneg_iff ha, hbi, hbj]

lemma zcc_bridge {a : ℝ} (ha : 0 < a) :
    ∀ n k : ℕ,
      zero_crossing_count (tone_sample a k)
          ((List.range n).map fun j => tone_sample a (k + 1 + j))
        = ∑ i ∈ Finset.range n,
            (if crossing_bit (k + i) ≠ crossing_bit (k + i + 1) then 1 else 0) := by
  intro n
  induction n with
  | zero =>
    intro k
    simp [zero_crossing_count]
  | succ n ih =>
    intro k
    have hfun : (fun j => tone_sample a (k + 1 + j)) ∘ Nat.succ
        = fun j => tone_sample a (k + 1 + 1 + j) := by
      funext j
      simp only [Function.comp]
      congr 1
      omega
    have hlist : (List.range (n + 1)).map (fun j => tone_sample a (k + 1 + j))
        = tone_sample a (k + 1) ::
            ((List.range n).map fun j => tone_sample a (k + 1 + 1 + j)) := by
      rw [List.range_succ_eq_map, List.map_cons, List.map_map, hfun]
    rw [hlist, zero_crossing_count, ih (k + 1)]
    have hcond : (if (tone_sample a k < 0 ∧ 0 ≤ tone_sample a (k + 1)) ∨
          (0 ≤ tone_sample a k ∧ tone_sample a (k + 1) < 0) then 1 else 0)
        = (if crossing_bit (k + 0) ≠ crossing_bit (k + 0 + 1) then 1 else 0) := by
      simp only [Nat.add_zero]
      exact if_congr (tone_cond_iff ha k (k + 1)) rfl rfl
    have hsum : ∑ i ∈ Finset.range n,
          (if crossing_bit (k + 1 + i) ≠ crossing_bit (k + 1 + i + 1) then 1 else 0)
        = ∑ i ∈ Finset.range n,
            (if crossing_bit (k + (i + 1)) ≠ crossing_bit (k + (i + 1) + 1) then 1 else 0) := by
      apply Finset.sum_congr rfl
      intro i _
      have h1 : k + 1 + i = k + (i + 1) := by omega
      rw [h1]
    rw [hcond, hsum, Finset.sum_range_succ', Nat.add_comm]

lemma crossing_bit_period (k i : ℕ) : crossing_bit (1200 * k + i) = crossing_bit i := by
  unfold crossing_bit
  have h : (11 * (1200 * k + i)) % 1200 = (11 * i) % 1200 := by omega
  rw [h]

set_option maxRecDepth 100000 in
lemma change_count_1200 : change_count 1200 = 22 := by decide

set_option maxRecDepth 100000 in
lemma change_count_1199 : change_count 1199 = 21 := by decide

lemma change_count_block (K : ℕ) : change_count (1200 * K) = 22 * K := by
  induction K with
  | zero => simp [change_count]
  | succ K ih =>
    have h : 1200 * (K + 1) = 1200 * K + 1200 := by ring
    rw [change_count, h, Finset.sum_range_add]
    have h2 : ∑ i ∈ Finset.range 1200,
        (if crossing_bit (1200 * K + i) ≠ crossing_bit (1200 * K + i + 1) then 1 else 0)
        = 22 := by
      have hcg : ∀ i ∈ Finset.range 1200,
          (if crossing_bit (1200 * K + i) ≠ crossing_bit (1200 * K + i + 1) then 1 else 0)
            = (if crossing_bit i ≠ crossing_bit (i + 1) then 1 else 0) := by
        intro i _
        rw [show 1200 * K + i + 1 = 1200 * K + (i + 1) from rfl,
          crossing_bit_period, crossing_bit_period]
      rw [Finset.sum_congr rfl hcg, ← change_count]
      exact change_count_1200
    rw [← change_count, ih, h2]
    ring

lemma change_count_add (p q : ℕ) :
    change_count (1200 * p + q) = 22 * p + change_count q := by
  rw [change_count, Finset.sum_range_add, ← change_count, change_count_block]
  congr 1
  rw [change_count]
  apply Finset.sum_congr rfl
  intro i _
  rw [show 1200 * p + i + 1 = 1200 * p + (i + 1) from rfl,
    crossing_bit_period, crossing_bit_period]

lemma change_count_95999 : change_count 95999 = 1759 := by
  have h1 := change_count_add 79 1199
  rw [change_count_1199] at h1
  rw [show (95999 : ℕ) = 1200 * 79 + 1199 from by norm_num, h1]

/-- C7: for every positive amplitude, feeding the 96000 samples generated by
the oscillator initialized at 440 Hz / 48000 Hz into the zero-crossing
frequency detector at sample rate 48000 yields a value within 5 Hz of 440
(in fact exactly 439.75 Hz: 1759 sign changes). -/
theorem detect_frequency_on_440_tone (a : ℝ) (ha : 0 < a) :
    |detect_frequency_float
        ((sine_generator_process_f32 (sine_generator_init 440 48000 a) 96000).1) 48000
      - 440| ≤ 5 := by
  have hsample : sample_of (sine_generator_init 440 48000 a) = tone_sample a := by
    funext i
    unfold sample_of tone_sample
    rw [phase440, iterate_step_amplitude]
    rfl
  have hlist : (sine_generator_process_f32 (sine_generator_init 440 48000 a) 96000).1
      = (List.range 96000).map (tone_sample a) := by
    rw [process_f32_fst, hsample]
  have hdecomp : (List.range 96000).map (tone_sample a)
      = tone_sample a 0 :: ((List.range 95999).map fun j => tone_sample a (0 + 1 + j)) := by
    have hfun0 : tone_sample a ∘ Nat.succ = fun j => tone_sample a (0 + 1 + j) := by
      funext j
      simp only [Function.comp]
      congr 1
      omega
    have h96 : (96000 : ℕ) = 95999 + 1 := by norm_num
    rw [h96, List.range_succ_eq_map, List.map_cons, List.map_map, hfun0]
  rw [hlist, hdecomp, detect_frequency_float]
  have hcount : zero_crossing_count (tone_sample a 0)
      ((List.range 95999).map fun j => tone_sample a (0 + 1 + j)) = 1759 := by
    rw [zcc_bridge ha]
    have hcg : ∀ i ∈ Finset.range 95999,
        (if crossing_bit (0 + i) ≠ crossing_bit (0 + i + 1) then 1 else 0)
          = (if crossing_bit i ≠ crossing_bit (i + 1) then 1 else 0) := by
      intro i _
      rw [Nat.zero_add]
    rw [Finset.sum_congr rfl hcg, ← change_count, change_count_95999]
  rw [hcount]
  have hlen : (tone_sample a 0 ::
      ((List.range 95999).map fun j => tone_sample a (0 + 1 + j))).length = 96000 := by
    simp
  rw [hlen]
  push_cast
  rw [abs_le]
  constructor <;> norm_num

/-- C7 witness: at amplitude `1/2` the detected frequency is within 5 Hz of 440. -/
theorem detect_frequency_on_440_tone_witness :
    |detect_frequency_float
        ((sine_generator_process_f32 (sine_generator_init 440 48000 (1/2)) 96000).1) 48000
      - 440| ≤ 5 :=
  detect_frequency_on_440_tone (1/2) (by norm_num)
